import Mathlib

/-!
Formal model of `obsifix` (`src/main.go`, the later of the two revisions in
the file; the earlier revision's reformat tag step is modelled separately as
`reformatTagsV1`).  File contents are modelled as lists of characters,
timestamps (`time.Time`) as integers with `0` as the zero value, and the
external collaborators (git history queries, the YAML front-matter codec,
stdin confirmation) as explicit parameters carrying their results.
-/

/-- A byte/character string, as stored in files. -/
abbrev Str := List Char

/-- Input front-matter dialect (`MatterIn` in `src/main.go`, second revision):
`Created` (a `Datetime`, zero when absent), `Tags`, `Aliases`, `Publish`,
in struct field order. -/
structure MatterIn where
  created : Int
  tags : List String
  aliases : List String
  publish : Bool
deriving DecidableEq

/-- Output front-matter dialect (`MatterOut` in `src/main.go`, second revision):
`Created`, `Lastmod`, `Title`, `Tags`, `Aliases`, in struct field order. -/
structure MatterOut where
  created : Int
  lastmod : Int
  title : String
  tags : List String
  aliases : List String
deriving DecidableEq

/-- The command-line flags of `main` that drive per-file processing. -/
structure Flags where
  target : Str
  force : Bool
  quartz : Bool
  reformat : Bool
  fixChtime : Bool
  debug : Bool
deriving DecidableEq

/-- The externally visible effect of processing one walked file:
nothing, a timestamp change (`os.Chtimes`), a byte-for-byte copy,
a write of freshly serialized bytes, a write of the original bytes,
or an error aborting the run. -/
inductive FileResult where
  | none
  | chtimed (t : Int)
  | copied (dst : Str) (bytes : Str)
  | wroteNew (dst : Str) (bytes : Str)
  | wroteOrig (dst : Str) (bytes : Str)
  | err
deriving DecidableEq

/-- ASCII whitespace, modelling the character class trimmed by
`bytes.TrimSpace`. -/
def isSpaceChar (c : Char) : Bool :=
  c = ' ' || c = '\t' || c = '\n' || c = '\r' || c = '\x0b' || c = '\x0c'

/-- Drop leading whitespace. -/
def trimLeft (s : Str) : Str := s.dropWhile isSpaceChar

/-- Drop trailing whitespace. -/
def trimRight (s : Str) : Str := (s.reverse.dropWhile isSpaceChar).reverse

/-- `bytes.TrimSpace`: drop leading and trailing whitespace. -/
def trimSpace (s : Str) : Str := trimRight (trimLeft s)

/-- The front-matter delimiter line content. -/
def dashes : Str := "---".toList

/-- The delimiter line including its newline, as printed by
`fmt.Fprintln(buf, "---")`. -/
def dashesNl : Str := "---\n".toList

/-- Key prefix of the `created` line in the encoded header. -/
def createdKey : Str := "created: ".toList

/-- Key prefix of the `lastmod` line in the encoded header. -/
def lastmodKey : Str := "lastmod: ".toList

/-- Key prefix of the `title` line in the encoded header. -/
def titleKey : Str := "title: ".toList

/-- The `tags:` block-opening line of the encoded header. -/
def tagsKey : Str := "tags:".toList

/-- The `aliases:` block-opening line of the encoded header. -/
def aliasesKey : Str := "aliases:".toList

/-- The four-space-indented list item marker used by the YAML encoder. -/
def itemPref : Str := "    - ".toList

/-- The `publish: true` line of the encoded header. -/
def publishTrue : Str := "publish: true".toList

/-- One list-item line of the encoded header. -/
def encItem (t : String) : Str := itemPref ++ t.toList

/-- Modelled from the spec: the external front-matter codec ("serializes a
structured header back into the same block form, preserving the enumerated
field order") applied to the input dialect, as `yaml.NewEncoder().Encode`
does for `MatterIn`: `created` always emitted via the fixed `Datetime` text
layout `fmt`, then `tags`, `aliases`, `publish`, each omitted when empty or
false (`omitempty`).  Produces the list of header lines. -/
def encodeMatterLines (fmt : Int → Str) (m : MatterIn) : List Str :=
  (createdKey ++ fmt m.created) ::
    ((if m.tags = [] then [] else tagsKey :: m.tags.map encItem) ++
      (if m.aliases = [] then [] else aliasesKey :: m.aliases.map encItem) ++
      (if m.publish then [publishTrue] else []))

/-- Modelled from the spec: the external codec applied to the output dialect
(`MatterOut`): "All fields always emitted (no omission)"; empty lists are
emitted as the inline empty list. -/
def encodeMatterOutLines (fmt : Int → Str) (o : MatterOut) : List Str :=
  (createdKey ++ fmt o.created) ::
    (lastmodKey ++ fmt o.lastmod) ::
      (titleKey ++ o.title.toList) ::
        ((if o.tags = [] then ["tags: []".toList] else tagsKey :: o.tags.map encItem) ++
          (if o.aliases = [] then ["aliases: []".toList] else aliasesKey :: o.aliases.map encItem))

/-- Join header lines into a byte stream, one `\n` after each line. -/
def linesJoin (ls : List Str) : Str := (ls.map (fun l => l ++ ['\n'])).flatten

/-- The serialized document built at the `compareAndWrite` label:
`fmt.Fprintln(buf, "---")`, the encoded header, `fmt.Fprintln(buf, "---")`,
the body with surrounding whitespace trimmed, and one final `'\n'`. -/
def mkFileBytes (hdr : List Str) (content : Str) : Str :=
  dashesNl ++ linesJoin hdr ++ dashesNl ++ trimSpace content ++ ['\n']

/-- The tag rename loop of reformat mode: every tag equal to `"wip"`
becomes `"draft"`. -/
def renameWip (tags : List String) : List String :=
  tags.map (fun t => if t = "wip" then "draft" else t)

/-- The header produced by reformat mode (second revision): tags renamed via
`renameWip`, `Created` overwritten with the git first-added timestamp `c`;
aliases and publish carried through. -/
def reformatHeader (c : Int) (m : MatterIn) : MatterIn :=
  { m with created := c, tags := renameWip m.tags }

/-- The reformat tag step of the FIRST revision in `src/main.go`
(lines with the `len(matterIn.Tags) == 0` check): rename `"wip"` to
`"draft"`, then append `"draft"` when the list is empty. -/
def reformatTagsV1 (tags : List String) : List String :=
  let t := renameWip tags
  if t = [] then t ++ ["draft"] else t

/-- `strings.TrimSuffix`. -/
def trimSuffixStr (s suf : String) : String :=
  if suf.toList <:+ s.toList then
    String.mk (s.toList.take (s.toList.length - suf.toList.length))
  else s

/-- The output header built by publish (quartz) mode: title from the file
name without `.md` (overridden to `"Index"` for the root index document),
aliases and tags copied through, `created` and `lastmod` from git history. -/
def quartzMatter (cp : Str) (name : String) (c l : Int) (m : MatterIn) : MatterOut :=
  { created := c, lastmod := l,
    title := if cp = "/_index.md".toList then "Index" else trimSuffixStr name ".md",
    tags := m.tags, aliases := m.aliases }

/-- `path.Join(target, contentPath)` for a cleaned target and a relative
content path beginning with `/`. -/
def pathJoin (t p : Str) : Str := t ++ p

/-- A path lies strictly under directory `wd`. -/
def underPath (wd p : Str) : Prop := (wd ++ ['/']) <+: p

/-- The `compareAndWrite` label of `main`: if the serialized bytes differ
from the original file's bytes, write the serialized bytes; otherwise,
if `always` is set, write the original bytes; otherwise do nothing. -/
def compareAndWrite (always : Bool) (buf original dst : Str) : FileResult :=
  if buf ≠ original then .wroteNew dst buf
  else if always then .wroteOrig dst original
  else .none

/-- The mode dispatch of the walk callback of `main` (second revision) for a
parsed document: the reformat branch, the quartz branch (with its publish
and draft filters), or the fall-through when neither mode flag is set, each
approval-gated branch ending at the shared `compareAndWrite` label. -/
def processDoc (encIn : MatterIn → List Str) (encOut : MatterOut → List Str)
    (fl : Flags) (cp : Str) (name : String)
    (matterIn : MatterIn) (content original : Str)
    (gitCreated gitLastMod : Option Int) (confirmAnswer : Bool) : FileResult :=
  if fl.reformat then
    match gitCreated with
    | Option.none => .err
    | some c =>
      if fl.force ∨ confirmAnswer then
        compareAndWrite false
          (mkFileBytes (encIn (reformatHeader c matterIn)) content)
          original (pathJoin fl.target cp)
      else .none
  else if fl.quartz then
    if matterIn.publish then
      if "draft" ∈ matterIn.tags then .none
      else
        match gitCreated with
        | Option.none => .err
        | some c =>
          match gitLastMod with
          | Option.none => .err
          | some l =>
            if fl.force ∨ confirmAnswer then
              compareAndWrite true
                (mkFileBytes (encOut (quartzMatter cp name c l matterIn)) content)
                original (pathJoin fl.target cp)
            else .none
    else .none
  else .none

/-- The walk callback of `main` (second revision) for one file, with the
external world passed in: `encIn`/`encOut` the codec's serializers, `cp` the
content path (`fpath` with the working directory trimmed), `name` the file
name, `parsed` the codec's parse of the file (`none` models a parse error),
`original` the file's bytes, `gitCreated`/`gitLastMod` the git history
query results (`none` models a query error), `confirmAnswer` whether the
next stdin line is exactly `"y"`. -/
def processFile (encIn : MatterIn → List Str) (encOut : MatterOut → List Str)
    (fl : Flags) (cp : Str) (name : String) (isDir : Bool) (modTime : Int)
    (parsed : Option (MatterIn × Str)) (original : Str)
    (gitCreated gitLastMod : Option Int) (confirmAnswer : Bool) : FileResult :=
  if fl.fixChtime then
    match gitLastMod with
    | Option.none => .err
    | some t => if t ≠ 0 ∧ t ≠ modTime then .chtimed t else .none
  else if isDir then .none
  else if (".md".toList).isSuffixOf name.toList then
    if ("/templates".toList).isPrefixOf cp then .none
    else if ("/assets".toList).isPrefixOf cp then
      .copied (pathJoin fl.target cp) original
    else
      match parsed with
      | Option.none => .err
      | some (matterIn, content) =>
        processDoc encIn encOut fl cp name matterIn content original
          gitCreated gitLastMod confirmAnswer
  else .none

/-- Whether a result is a document write (a write of serialized or original
document bytes, as opposed to an asset copy or a timestamp change). -/
def isDocWrite : FileResult → Bool
  | .wroteNew _ _ => true
  | .wroteOrig _ _ => true
  | _ => false

/-- The destination path of a result that writes file contents. -/
def writeTarget : FileResult → Option Str
  | .wroteNew d _ => some d
  | .wroteOrig d _ => some d
  | .copied d _ => some d
  | _ => Option.none

/-- `getGitLastMod` of `src/main.go` over the raw output of the external
`git log -1 --pretty=format:%ci` invocation (`none` models a command
error): empty output yields the zero timestamp with no error; otherwise the
trimmed output is parsed with the fixed layout (`parseTime`, the external
`time.Parse`), a parse failure being an error. -/
def getGitLastMod (parseTime : Str → Option Int) (cmdOut : Option Str) : Except Unit Int :=
  match cmdOut with
  | Option.none => .error ()
  | some b =>
    if b = [] then .ok 0
    else
      match parseTime (trimSpace b) with
      | some t => .ok t
      | Option.none => .error ()

/-- `getGitCreated` of `src/main.go` over the raw output of the external
`git log --diff-filter=A --follow --format=%ci -1` invocation, with the
same shape as `getGitLastMod`. -/
def getGitCreated (parseTime : Str → Option Int) (cmdOut : Option Str) : Except Unit Int :=
  match cmdOut with
  | Option.none => .error ()
  | some b =>
    if b = [] then .ok 0
    else
      match parseTime (trimSpace b) with
      | some t => .ok t
      | Option.none => .error ()

/-- Modelled from the spec: the external front-matter codec's parser item
collector — consecutive list-item lines are decoded back to their strings,
stopping at the first line that is not a list item. -/
def parseItems : List Str → List String × List Str
  | [] => ([], [])
  | l :: ls =>
    if itemPref.isPrefixOf l then
      ((String.mk (l.drop 6)) :: (parseItems ls).1, (parseItems ls).2)
    else ([], l :: ls)

/-- Modelled from the spec: decode one optional key-opened list block of the
encoded header. -/
def parseBlock (key : Str) : List Str → List String × List Str
  | [] => ([], [])
  | l :: ls => if l = key then parseItems ls else ([], l :: ls)

/-- Modelled from the spec: the external codec's decoder for the input
dialect ("parses a leading structured header block ... returning the
structured fields"), inverse to `encodeMatterLines` on its image.  The
`created` value is decoded with `p`, the external `Datetime` text-layout
parser whose failures silently fall back to the zero value. -/
def decodeMatterLines (p : Str → Int) : List Str → Option MatterIn
  | [] => Option.none
  | c :: ls =>
    if createdKey.isPrefixOf c then
      match parseBlock tagsKey ls with
      | (tags, ls1) =>
        match parseBlock aliasesKey ls1 with
        | (aliases, ls2) =>
          match ls2 with
          | [] => some ⟨p (c.drop 9), tags, aliases, false⟩
          | [l] => if l = publishTrue then some ⟨p (c.drop 9), tags, aliases, true⟩ else Option.none
          | _ => Option.none
    else Option.none

/-- Modelled from the spec: the header-block scanner of the external
codec — consume lines until the closing delimiter line, returning the
header lines and the exact remaining bytes. `cur` holds the reversed
current line, `acc` the reversed collected lines. -/
def collectHdrAux (cur : Str) (acc : List Str) : Str → Option (List Str × Str)
  | [] => Option.none
  | c :: cs =>
    if c = '\n' then
      if cur.reverse = dashes then some (acc.reverse, cs)
      else collectHdrAux [] (cur.reverse :: acc) cs
    else collectHdrAux (c :: cur) acc cs

/-- Scan a byte stream for the header lines up to the closing delimiter. -/
def collectHdr (s : Str) : Option (List Str × Str) := collectHdrAux [] [] s

/-- Modelled from the spec: the external codec's full document parse
(`frontmatter.Parse` followed by YAML decoding into `MatterIn`): an opening
delimiter line, header lines up to the closing delimiter line, the decoded
header and the remaining bytes as the body. -/
def parseDocument (p : Str → Int) (s : Str) : Option (MatterIn × Str) :=
  if dashesNl.isPrefixOf s then
    match collectHdr (s.drop 4) with
    | some (ls, rest) =>
      match decodeMatterLines p ls with
      | some m => some (m, rest)
      | Option.none => Option.none
    | Option.none => Option.none
  else Option.none

/-- One full reformat-mode serialization of a parsed document: transform the
header, then serialize header and body. -/
def runReformatBytes (fmt : Int → Str) (c : Int) (m : MatterIn) (body : Str) : Str :=
  mkFileBytes (encodeMatterLines fmt (reformatHeader c m)) body

/-- A concrete timestamp text layout used to instantiate the external
`Datetime` formatting in witnesses. -/
def decimalFmt (c : Int) : Str := (toString c).toList

instance (wd p : Str) : Decidable (underPath wd p) := by
  unfold underPath
  infer_instance


theorem dropWhile_head_not {α : Type} (p : α → Bool) (a : α) (l : List α)
    (h : (a :: l).dropWhile p = a :: l) : p a = false := by
  by_cases hp : p a
  · rw [List.dropWhile_cons_of_pos hp] at h
    have h1 : (l.dropWhile p).length ≤ l.length := (List.dropWhile_suffix p).length_le
    rw [h] at h1
    simp at h1
  · simpa using hp

theorem prefix_dropWhile_eq {α : Type} (p : α → Bool) (l u : List α)
    (hpre : l <+: u) (hu : u.dropWhile p = u) : l.dropWhile p = l := by
  cases l with
  | nil => rfl
  | cons a t =>
    obtain ⟨r, hr⟩ := hpre
    rw [← hr, List.cons_append] at hu
    have ha := dropWhile_head_not p a (t ++ r) hu
    rw [List.dropWhile_cons_of_neg (by simp [ha])]

theorem trimRight_pref (s : Str) : trimRight s <+: s := by
  unfold trimRight
  have h : s.reverse.dropWhile isSpaceChar <:+ s.reverse := List.dropWhile_suffix isSpaceChar
  have h2 := List.reverse_prefix.mpr h
  simpa using h2

theorem trimLeft_trimSpace (s : Str) : trimLeft (trimSpace s) = trimSpace s := by
  unfold trimSpace trimLeft
  exact prefix_dropWhile_eq isSpaceChar _ _ (trimRight_pref (trimLeft s))
    (List.dropWhile_idempotent isSpaceChar s)

theorem trimSpace_reverse_drop (s : Str) :
    (trimSpace s).reverse.dropWhile isSpaceChar = (trimSpace s).reverse := by
  unfold trimSpace trimRight
  rw [List.reverse_reverse]
  exact List.dropWhile_idempotent isSpaceChar _

theorem trimSpace_append_newline (s : Str) :
    trimSpace (trimSpace s ++ ['\n']) = trimSpace s := by
  rcases h : trimSpace s with _ | ⟨a, t⟩
  · rfl
  · have ha : isSpaceChar a = false := by
      have h1 := trimLeft_trimSpace s
      rw [h] at h1
      exact dropWhile_head_not _ a t h1
    have h3 := trimSpace_reverse_drop s
    rw [h] at h3
    show trimRight (trimLeft ((a :: t) ++ ['\n'])) = a :: t
    rw [show trimLeft ((a :: t) ++ ['\n']) = (a :: t) ++ ['\n'] by
      unfold trimLeft
      rw [List.cons_append, List.dropWhile_cons_of_neg (by simp [ha])]]
    unfold trimRight
    rw [List.reverse_append]
    show (('\n' :: (a :: t).reverse).dropWhile isSpaceChar).reverse = a :: t
    rw [List.dropWhile_cons_of_pos (by decide), h3, List.reverse_reverse]

theorem collectHdrAux_line (cur : Str) (acc : List Str) (l cs : Str) (h : '\n' ∉ l) :
    collectHdrAux cur acc (l ++ '\n' :: cs)
      = if cur.reverse ++ l = dashes then some (acc.reverse, cs)
        else collectHdrAux [] ((cur.reverse ++ l) :: acc) cs := by
  induction l generalizing cur with
  | nil => simp [collectHdrAux]
  | cons a l ih =>
    have ha : ¬ a = '\n' := fun hc => h (hc ▸ List.mem_cons_self a l)
    rw [List.cons_append]
    rw [show collectHdrAux cur acc (a :: (l ++ '\n' :: cs))
        = collectHdrAux (a :: cur) acc (l ++ '\n' :: cs) by
      simp [collectHdrAux, ha]]
    rw [ih (a :: cur) (fun hm => h (List.mem_cons_of_mem a hm))]
    simp [List.reverse_cons, List.append_assoc]

theorem collectHdrAux_hdr (ls : List Str) (acc : List Str) (rest : Str)
    (h : ∀ l ∈ ls, '\n' ∉ l ∧ l ≠ dashes) :
    collectHdrAux [] acc (linesJoin ls ++ (dashes ++ '\n' :: rest))
      = some (acc.reverse ++ ls, rest) := by
  induction ls generalizing acc with
  | nil =>
    simp only [linesJoin, List.map_nil, List.flatten_nil, List.nil_append]
    rw [collectHdrAux_line [] acc dashes rest (by decide)]
    simp
  | cons l ls ih =>
    have hl := h l (List.mem_cons_self l ls)
    have hstep : linesJoin (l :: ls) ++ (dashes ++ '\n' :: rest)
        = l ++ '\n' :: (linesJoin ls ++ (dashes ++ '\n' :: rest)) := by
      simp [linesJoin, List.append_assoc]
    rw [hstep, collectHdrAux_line [] acc l _ hl.1]
    rw [if_neg (by simpa using hl.2)]
    simp only [List.reverse_nil, List.nil_append]
    rw [ih (l :: acc) (fun x hx => h x (List.mem_cons_of_mem _ hx))]
    simp

theorem parseItems_map (ts : List String) (rest : List Str)
    (h : ∀ l ∈ rest.head?, itemPref.isPrefixOf l = false) :
    parseItems (ts.map encItem ++ rest) = (ts, rest) := by
  induction ts with
  | nil =>
    cases rest with
    | nil => rfl
    | cons l ls =>
      have hl := h l rfl
      simp [parseItems, hl]
  | cons t ts ih =>
    simp only [List.map_cons, List.cons_append, parseItems]
    have hpre : itemPref <+: encItem t := ⟨t.toList, rfl⟩
    rw [if_pos ( List.isPrefixOf_iff_prefix.mpr hpre)]
    simp only [List.append_eq]
    rw [ih]
    have hdrop : (encItem t).drop 6 = t.toList := by
      show (itemPref ++ t.toList).drop 6 = t.toList
      rw [show (6 : Nat) = itemPref.length from rfl]
      exact List.drop_left itemPref t.toList
    rw [hdrop]
    rfl

theorem parseBlock_absent (key : Str) (rest : List Str)
    (h : ∀ l ∈ rest.head?, l ≠ key) :
    parseBlock key rest = ([], rest) := by
  cases rest with
  | nil => rfl
  | cons l ls =>
    have hl := h l rfl
    simp [parseBlock, hl]

theorem parseBlock_present (key : Str) (ts : List String) (rest : List Str)
    (h : ∀ l ∈ rest.head?, itemPref.isPrefixOf l = false) :
    parseBlock key (key :: (ts.map encItem ++ rest)) = (ts, rest) := by
  simp [parseBlock, parseItems_map ts rest h]

theorem head_forall_cons {α : Type} (x : α) (r : List α) (P : α → Prop) (hx : P x) :
    ∀ l ∈ (x :: r).head?, P l := by
  intro l hl
  simp only [List.head?_cons, Option.mem_def, Option.some.injEq] at hl
  exact hl ▸ hx

theorem head_forall_nil {α : Type} (P : α → Prop) :
    ∀ l ∈ ([] : List α).head?, P l := by
  intro l hl
  simp at hl

theorem decodeMatterLines_encode (fmt : Int → Str) (p : Str → Int) (m : MatterIn) :
    decodeMatterLines p (encodeMatterLines fmt m)
      = some ⟨p (fmt m.created), m.tags, m.aliases, m.publish⟩ := by
  rcases m with ⟨cr, tags, aliases, publish⟩
  have hdrop : (createdKey ++ fmt cr).drop 9 = fmt cr := by
    rw [show (9 : Nat) = createdKey.length from rfl]
    exact List.drop_left createdKey (fmt cr)
  have hckey : List.isPrefixOf createdKey (createdKey ++ fmt cr) = true :=
    List.isPrefixOf_iff_prefix.mpr ⟨fmt cr, rfl⟩
  unfold encodeMatterLines decodeMatterLines
  simp only [MatterIn.created, MatterIn.tags, MatterIn.aliases, MatterIn.publish]
  rw [if_pos hckey]
  by_cases h1 : tags = [] <;> by_cases h2 : aliases = [] <;> cases publish <;>
    simp only [h1, h2, ite_true, ite_false, if_true, if_false, Bool.false_eq_true,
      List.nil_append, List.cons_append, List.append_assoc]
  · rw [parseBlock_absent tagsKey _ (head_forall_nil _),
      parseBlock_absent aliasesKey _ (head_forall_nil _)]
    simp [h1, h2, hdrop]
  · rw [parseBlock_absent tagsKey _ (head_forall_cons _ _ _ (by decide)),
      parseBlock_absent aliasesKey _ (head_forall_cons _ _ _ (by decide))]
    simp [h1, h2, hdrop]
  · rw [parseBlock_absent tagsKey _ (head_forall_cons _ _ _ (by decide)),
      parseBlock_present aliasesKey aliases [] (head_forall_nil _)]
    simp [h1, h2, hdrop]
  · rw [parseBlock_absent tagsKey _ (head_forall_cons _ _ _ (by decide)),
      parseBlock_present aliasesKey aliases [publishTrue]
        (head_forall_cons _ _ _ (by decide))]
    simp [h1, h2, hdrop]
  · rw [parseBlock_present tagsKey tags [] (head_forall_nil _),
      parseBlock_absent aliasesKey _ (head_forall_nil _)]
    simp [h1, h2, hdrop]
  · rw [parseBlock_present tagsKey tags [publishTrue]
        (head_forall_cons _ _ _ (by decide)),
      parseBlock_absent aliasesKey _ (head_forall_cons _ _ _ (by decide))]
    simp [h1, h2, hdrop]
  · rw [parseBlock_present tagsKey tags (aliasesKey :: (aliases.map encItem ++ []))
        (head_forall_cons _ _ _ (by decide)),
      parseBlock_present aliasesKey aliases [] (head_forall_nil _)]
    simp [h1, h2, hdrop]
  · rw [parseBlock_present tagsKey tags (aliasesKey :: (aliases.map encItem ++ [publishTrue]))
        (head_forall_cons _ _ _ (by decide)),
      parseBlock_present aliasesKey aliases [publishTrue]
        (head_forall_cons _ _ _ (by decide))]
    simp [h1, h2, hdrop]

theorem renameWip_idem (l : List String) : renameWip (renameWip l) = renameWip l := by
  unfold renameWip
  rw [List.map_map]
  apply List.map_congr_left
  intro a _
  by_cases h : a = "wip" <;> simp [h]

theorem renameWip_no_newline (l : List String) (h : ∀ t ∈ l, '\n' ∉ t.toList) :
    ∀ t ∈ renameWip l, '\n' ∉ t.toList := by
  intro t ht
  rcases List.mem_map.mp ht with ⟨x, hx, rfl⟩
  by_cases hw : x = "wip" <;> simp only [hw, ite_true, ite_false, if_true, if_false]
  · decide
  · exact h x hx

theorem createdLine_ok (s : Str) (hs : '\n' ∉ s) :
    '\n' ∉ createdKey ++ s ∧ createdKey ++ s ≠ dashes := by
  constructor
  · intro hm
    rcases List.mem_append.mp hm with h1 | h1
    · exact absurd h1 (by decide)
    · exact hs h1
  · intro he
    have := congrArg List.head? he
    simp [createdKey, dashes] at this

theorem encItem_ok (x : String) (hx : '\n' ∉ x.toList) :
    '\n' ∉ encItem x ∧ encItem x ≠ dashes := by
  constructor
  · intro hm
    rcases List.mem_append.mp hm with h1 | h1
    · exact absurd h1 (by decide)
    · exact hx h1
  · intro he
    have := congrArg List.head? he
    simp [encItem, itemPref, dashes] at this

theorem encodeMatterLines_ok (fmt : Int → Str) (m : MatterIn)
    (hf : '\n' ∉ fmt m.created)
    (ht : ∀ t ∈ m.tags, '\n' ∉ t.toList)
    (ha : ∀ a ∈ m.aliases, '\n' ∉ a.toList) :
    ∀ l ∈ encodeMatterLines fmt m, '\n' ∉ l ∧ l ≠ dashes := by
  intro l hl
  unfold encodeMatterLines at hl
  rcases List.mem_cons.mp hl with rfl | hl
  · exact createdLine_ok _ hf
  · rcases List.mem_append.mp hl with h1 | h1
    · rcases List.mem_append.mp h1 with h2 | h2
      · by_cases he : m.tags = []
        · simp [he] at h2
        · rw [if_neg he] at h2
          rcases List.mem_cons.mp h2 with rfl | h3
          · exact ⟨by decide, by decide⟩
          · rcases List.mem_map.mp h3 with ⟨x, hx, rfl⟩
            exact encItem_ok x (ht x hx)
      · by_cases he : m.aliases = []
        · simp [he] at h2
        · rw [if_neg he] at h2
          rcases List.mem_cons.mp h2 with rfl | h3
          · exact ⟨by decide, by decide⟩
          · rcases List.mem_map.mp h3 with ⟨x, hx, rfl⟩
            exact encItem_ok x (ha x hx)
    · by_cases he : m.publish = true
      · rw [if_pos he] at h1
        rcases List.mem_cons.mp h1 with rfl | h3
        · exact ⟨by decide, by decide⟩
        · simp at h3
      · simp [he] at h1

theorem parseDocument_mkFileBytes (p : Str → Int) (hdr : List Str) (content : Str)
    (m : MatterIn)
    (h : ∀ l ∈ hdr, '\n' ∉ l ∧ l ≠ dashes)
    (hdec : decodeMatterLines p hdr = some m) :
    parseDocument p (mkFileBytes hdr content) = some (m, trimSpace content ++ ['\n']) := by
  unfold parseDocument mkFileBytes
  simp only [List.append_assoc]
  rw [if_pos ( List.isPrefixOf_iff_prefix.mpr
    ⟨linesJoin hdr ++ (dashesNl ++ (trimSpace content ++ ['\n'])), rfl⟩)]
  rw [show (4 : Nat) = dashesNl.length from rfl,
    List.drop_left dashesNl (linesJoin hdr ++ (dashesNl ++ (trimSpace content ++ ['\n'])))]
  unfold collectHdr
  rw [show linesJoin hdr ++ (dashesNl ++ (trimSpace content ++ ['\n']))
      = linesJoin hdr ++ (dashes ++ '\n' :: (trimSpace content ++ ['\n'])) from rfl]
  rw [collectHdrAux_hdr hdr [] _ h]
  simp [hdec]

set_option maxHeartbeats 1000000 in
theorem writeTarget_processDoc
    (encIn : MatterIn → List Str) (encOut : MatterOut → List Str)
    (fl : Flags) (cp : Str) (name : String)
    (m : MatterIn) (content orig : Str) (gc gl : Option Int) (ca : Bool) :
    (writeTarget (processDoc encIn encOut fl cp name m content orig gc gl ca)).getD
        (pathJoin fl.target cp) = pathJoin fl.target cp := by
  unfold processDoc compareAndWrite
  repeat' first
    | rfl
    | split

set_option maxHeartbeats 1000000 in
theorem writeTarget_processFile
    (encIn : MatterIn → List Str) (encOut : MatterOut → List Str)
    (fl : Flags) (cp : Str) (name : String) (isDir : Bool) (mt : Int)
    (parsed : Option (MatterIn × Str)) (orig : Str) (gc gl : Option Int) (ca : Bool) :
    (writeTarget (processFile encIn encOut fl cp name isDir mt parsed orig gc gl ca)).getD
        (pathJoin fl.target cp) = pathJoin fl.target cp := by
  unfold processFile
  repeat' first
    | rfl
    | exact writeTarget_processDoc ..
    | split

set_option maxHeartbeats 1000000 in
/-- Claim C1: in publish (quartz) mode, a write to the output root occurs for
a document only if its publish flag is true and none of its tags equals
"draft": a document with publish flag false, or whose tags include "draft",
is never written. -/
theorem claim1_quartz_filters_block_writes
    (encIn : MatterIn → List Str) (encOut : MatterOut → List Str)
    (fl : Flags) (cp : Str) (name : String) (isDir : Bool) (mt : Int)
    (m : MatterIn) (content orig : Str) (gc gl : Option Int) (ca : Bool)
    (hq : fl.quartz = true) (hr : fl.reformat = false)
    (hfil : m.publish = false ∨ "draft" ∈ m.tags) :
    isDocWrite (processFile encIn encOut fl cp name isDir mt
      (some (m, content)) orig gc gl ca) = false := by
  unfold processFile processDoc
  rcases hfil with h | h <;> simp only [hq, hr, h] <;>
    (repeat' first
      | rfl
      | split) <;>
    simp_all [isDocWrite]

/-- Witness for C1: a concrete unpublished document in quartz mode yields
no document write. -/
theorem claim1_quartz_filters_witness :
    isDocWrite (processFile (encodeMatterLines decimalFmt) (encodeMatterOutLines decimalFmt)
      ⟨"/t".toList, true, true, false, false, false⟩ "/a.md".toList "a.md" false 0
      (some (⟨0, ["draft"], [], false⟩, "b".toList)) "X".toList (some 1) (some 2) false) = false :=
  claim1_quartz_filters_block_writes (encodeMatterLines decimalFmt) (encodeMatterOutLines decimalFmt)
    ⟨"/t".toList, true, true, false, false, false⟩ "/a.md".toList "a.md" false 0
    ⟨0, ["draft"], [], false⟩ "b".toList "X".toList (some 1) (some 2) false
    rfl rfl (Or.inl rfl)

set_option maxHeartbeats 1000000 in
/-- Claim C2: in publish (quartz) mode, a document passing both filters and
approved (force or confirmation) is always written: the serialized bytes
when they differ from the original, the original bytes verbatim when they
are identical. -/
theorem claim2_quartz_always_writes
    (encIn : MatterIn → List Str) (encOut : MatterOut → List Str)
    (fl : Flags) (cp : Str) (name : String) (isDir : Bool) (mt : Int)
    (m : MatterIn) (content orig : Str) (c l : Int) (ca : Bool)
    (hq : fl.quartz = true) (hr : fl.reformat = false) (hfc : fl.fixChtime = false)
    (hdir : isDir = false)
    (hmd : (".md".toList).isSuffixOf name.toList = true)
    (htpl : ("/templates".toList).isPrefixOf cp = false)
    (hast : ("/assets".toList).isPrefixOf cp = false)
    (hpub : m.publish = true) (hdraft : "draft" ∉ m.tags)
    (happ : fl.force = true ∨ ca = true) :
    (mkFileBytes (encOut (quartzMatter cp name c l m)) content ≠ orig →
      processFile encIn encOut fl cp name isDir mt (some (m, content)) orig (some c) (some l) ca
        = .wroteNew (pathJoin fl.target cp) (mkFileBytes (encOut (quartzMatter cp name c l m)) content))
    ∧ (mkFileBytes (encOut (quartzMatter cp name c l m)) content = orig →
      processFile encIn encOut fl cp name isDir mt (some (m, content)) orig (some c) (some l) ca
        = .wroteOrig (pathJoin fl.target cp) orig) := by
  have hred : processFile encIn encOut fl cp name isDir mt (some (m, content)) orig (some c) (some l) ca
      = compareAndWrite true (mkFileBytes (encOut (quartzMatter cp name c l m)) content) orig
          (pathJoin fl.target cp) := by
    unfold processFile processDoc
    repeat' first
      | rfl
      | split
    all_goals simp_all
  constructor <;> intro h <;> rw [hred] <;> simp [compareAndWrite, h]

/-- Witness for C2: a concrete published, non-draft document whose
serialization differs from the original is written with the new bytes. -/
theorem claim2_quartz_always_writes_witness :
    processFile (encodeMatterLines decimalFmt) (encodeMatterOutLines decimalFmt)
      ⟨"/t".toList, true, true, false, false, false⟩ "/a.md".toList "a.md" false 0
      (some (⟨0, [], [], true⟩, "b".toList)) "X".toList (some 1) (some 2) false
      = FileResult.wroteNew ("/t/a.md".toList)
          (mkFileBytes (encodeMatterOutLines decimalFmt
            (quartzMatter "/a.md".toList "a.md" 1 2 ⟨0, [], [], true⟩)) "b".toList) :=
  (claim2_quartz_always_writes (encodeMatterLines decimalFmt) (encodeMatterOutLines decimalFmt)
    ⟨"/t".toList, true, true, false, false, false⟩ "/a.md".toList "a.md" false 0
    ⟨0, [], [], true⟩ "b".toList "X".toList 1 2 false
    rfl rfl rfl rfl (by decide) (by decide) (by decide) rfl (by decide) (Or.inl rfl)).1
    (by decide)

set_option maxHeartbeats 1000000 in
/-- Claim C3: outside publish mode (reformat mode), a document whose
serialized bytes equal the original file's bytes causes no filesystem
write. -/
theorem claim3_reformat_unchanged_no_write
    (encIn : MatterIn → List Str) (encOut : MatterOut → List Str)
    (fl : Flags) (cp : Str) (name : String) (isDir : Bool) (mt : Int)
    (m : MatterIn) (content orig : Str) (c : Int) (gl : Option Int) (ca : Bool)
    (hr : fl.reformat = true) (hfc : fl.fixChtime = false)
    (hast : ("/assets".toList).isPrefixOf cp = false)
    (heq : mkFileBytes (encIn (reformatHeader c m)) content = orig) :
    processFile encIn encOut fl cp name isDir mt (some (m, content)) orig (some c) gl ca
      = FileResult.none := by
  unfold processFile processDoc
  simp only [hr, hfc, hast]
  repeat' first
    | rfl
    | split
  all_goals simp_all [compareAndWrite, heq]

/-- Witness for C3: a concrete reformat run whose serialization equals the
original bytes results in no action. -/
theorem claim3_reformat_unchanged_witness :
    processFile (encodeMatterLines decimalFmt) (encodeMatterOutLines decimalFmt)
      ⟨"/t".toList, false, false, true, false, false⟩ "/a.md".toList "a.md" false 0
      (some (⟨1, ["draft"], [], false⟩, "b\n".toList))
      (mkFileBytes (encodeMatterLines decimalFmt (reformatHeader 1 ⟨1, ["draft"], [], false⟩))
        "b\n".toList)
      (some 1) (some 2) false = FileResult.none :=
  claim3_reformat_unchanged_no_write (encodeMatterLines decimalFmt) (encodeMatterOutLines decimalFmt)
    ⟨"/t".toList, false, false, true, false, false⟩ "/a.md".toList "a.md" false 0
    ⟨1, ["draft"], [], false⟩ "b\n".toList _ 1 (some 2) false
    rfl rfl (by decide) rfl

/-- Counterexample to C4: in the second (current) revision's reformat mode,
a document with an empty tag list keeps an empty tag list — no "draft"
marker is inserted, and the emitted header carries no tag line at all. -/
theorem claim4_draft_insertion_counterexample :
    encodeMatterLines decimalFmt (reformatHeader 5 ⟨0, [], [], false⟩) = [createdKey ++ "5".toList]
    ∧ (reformatHeader 5 ⟨0, [], [], false⟩).tags = [] := by
  constructor <;> rfl

/-- Amended C4: the empty-tag-list "draft" insertion exists only in the
FIRST revision's reformat step (`reformatTagsV1`), whose output tag list is
always non-empty; the second revision's reformat (`reformatHeader`) only
renames "wip" to "draft" and may emit an empty tag list. -/
theorem claim4_draft_insertion_amended (tags : List String) (c : Int) (m : MatterIn) :
    reformatTagsV1 tags ≠ []
    ∧ (renameWip tags = [] → reformatTagsV1 tags = ["draft"])
    ∧ (reformatHeader c m).tags = renameWip m.tags := by
  refine ⟨?_, ?_, rfl⟩
  · by_cases h : renameWip tags = [] <;> simp [reformatTagsV1, h]
  · intro h
    simp [reformatTagsV1, h]

/-- Witness for amended C4: on the empty tag list, the first revision's
reformat step inserts the "draft" marker. -/
theorem claim4_draft_insertion_witness :
    reformatTagsV1 [] = ["draft"] ∧ reformatTagsV1 [] ≠ [] :=
  ⟨(claim4_draft_insertion_amended [] 0 ⟨0, [], [], false⟩).2.1 rfl,
    (claim4_draft_insertion_amended [] 0 ⟨0, [], [], false⟩).1⟩

set_option maxHeartbeats 1000000 in
/-- Claim C5: in reformat mode the new header's creation timestamp is the
git first-added timestamp, any creation timestamp in the input header being
overwritten (the result is insensitive to it). -/
theorem claim5_created_from_history
    (encIn : MatterIn → List Str) (encOut : MatterOut → List Str)
    (fl : Flags) (cp : Str) (name : String) (mt : Int)
    (m : MatterIn) (content orig : Str) (c d : Int) (gl : Option Int) (ca : Bool)
    (hr : fl.reformat = true) (hfc : fl.fixChtime = false)
    (hmd : (".md".toList).isSuffixOf name.toList = true)
    (htpl : ("/templates".toList).isPrefixOf cp = false)
    (hast : ("/assets".toList).isPrefixOf cp = false)
    (happ : fl.force = true ∨ ca = true) :
    processFile encIn encOut fl cp name false mt (some (m, content)) orig (some c) gl ca
      = compareAndWrite false (mkFileBytes (encIn (reformatHeader c m)) content) orig
          (pathJoin fl.target cp)
    ∧ (reformatHeader c m).created = c
    ∧ reformatHeader c { m with created := d } = reformatHeader c m := by
  refine ⟨?_, rfl, rfl⟩
  unfold processFile processDoc
  repeat' first
    | rfl
    | split
  all_goals simp_all

/-- Witness for C5: a concrete reformat run writes the serialized header
whose creation timestamp is the git first-added value 3, not the input
header's 7. -/
theorem claim5_created_from_history_witness :
    processFile (encodeMatterLines decimalFmt) (encodeMatterOutLines decimalFmt)
      ⟨"/t".toList, true, false, true, false, false⟩ "/a.md".toList "a.md" false 0
      (some (⟨7, ["wip"], [], false⟩, "b".toList)) "X".toList (some 3) (some 2) false
      = compareAndWrite false
          (mkFileBytes (encodeMatterLines decimalFmt (reformatHeader 3 ⟨7, ["wip"], [], false⟩))
            "b".toList)
          "X".toList ("/t/a.md".toList)
    ∧ (reformatHeader 3 ⟨7, ["wip"], [], false⟩).created = 3
    ∧ reformatHeader 3 { (⟨7, ["wip"], [], false⟩ : MatterIn) with created := 9 }
        = reformatHeader 3 ⟨7, ["wip"], [], false⟩ :=
  claim5_created_from_history (encodeMatterLines decimalFmt) (encodeMatterOutLines decimalFmt)
    ⟨"/t".toList, true, false, true, false, false⟩ "/a.md".toList "a.md" 0
    ⟨7, ["wip"], [], false⟩ "b".toList "X".toList 3 9 (some 2) false
    rfl rfl (by decide) (by decide) (by decide) (Or.inl rfl)

set_option maxHeartbeats 1000000 in
/-- Claim C6: reformat mode is idempotent — reparsing the serialized output
of one reformat pass and reformatting it again (same history) reproduces
the same output bytes. -/
theorem claim6_reformat_idempotent (fmt : Int → Str) (p : Str → Int) (c : Int)
    (m : MatterIn) (body : Str)
    (hf : '\n' ∉ fmt c)
    (ht : ∀ t ∈ m.tags, '\n' ∉ t.toList)
    (ha : ∀ a ∈ m.aliases, '\n' ∉ a.toList) :
    (parseDocument p (runReformatBytes fmt c m body)).map
        (fun d => runReformatBytes fmt c d.1 d.2)
      = some (runReformatBytes fmt c m body) := by
  have hm' : ∀ l ∈ encodeMatterLines fmt (reformatHeader c m), '\n' ∉ l ∧ l ≠ dashes := by
    apply encodeMatterLines_ok
    · simpa [reformatHeader] using hf
    · exact renameWip_no_newline m.tags ht
    · simpa [reformatHeader] using ha
  have hdec := decodeMatterLines_encode fmt p (reformatHeader c m)
  have hparse := parseDocument_mkFileBytes p (encodeMatterLines fmt (reformatHeader c m))
    body _ hm' hdec
  unfold runReformatBytes
  rw [hparse]
  have hmm : reformatHeader c
      ⟨p (fmt (reformatHeader c m).created), (reformatHeader c m).tags,
        (reformatHeader c m).aliases, (reformatHeader c m).publish⟩
      = reformatHeader c m := by
    simp [reformatHeader, renameWip_idem]
  simp only [Option.map_some']
  rw [hmm]
  unfold mkFileBytes
  rw [trimSpace_append_newline]

/-- Witness for C6: a concrete document with a "wip" tag, an alias and an
untrimmed body round-trips to identical bytes on the second reformat. -/
theorem claim6_reformat_idempotent_witness :
    (parseDocument (fun _ => 0)
        (runReformatBytes decimalFmt 5 ⟨0, ["wip"], ["al"], true⟩ " hi \n".toList)).map
        (fun d => runReformatBytes decimalFmt 5 d.1 d.2)
      = some (runReformatBytes decimalFmt 5 ⟨0, ["wip"], ["al"], true⟩ " hi \n".toList) :=
  claim6_reformat_idempotent decimalFmt (fun _ => 0) 5 ⟨0, ["wip"], ["al"], true⟩ " hi \n".toList
    (by decide) (by decide) (by decide)

/-- Counterexample to C7: a file under the assets prefix whose name does
not end in ".md" is not copied at all — the extension check precedes the
assets check, so the walk does nothing for it. -/
theorem claim7_assets_copy_counterexample :
    processFile (encodeMatterLines decimalFmt) (encodeMatterOutLines decimalFmt)
      ⟨"/t".toList, true, true, false, false, false⟩ "/assets/logo.png".toList "logo.png"
      false 0 Option.none "PNG".toList Option.none Option.none false = FileResult.none := by
  decide

set_option maxHeartbeats 1000000 in
/-- Amended C7: a file under the assets prefix whose name ends in ".md" is
copied byte-for-byte to the joined output path without ever being parsed
(the parse result is irrelevant); files without the ".md" extension are
skipped entirely. -/
theorem claim7_assets_copy_amended
    (encIn : MatterIn → List Str) (encOut : MatterOut → List Str)
    (fl : Flags) (cp : Str) (name : String) (mt : Int)
    (parsed : Option (MatterIn × Str)) (orig : Str) (gc gl : Option Int) (ca : Bool)
    (hfc : fl.fixChtime = false)
    (hmd : (".md".toList).isSuffixOf name.toList = true)
    (hast : ("/assets".toList).isPrefixOf cp = true) :
    processFile encIn encOut fl cp name false mt parsed orig gc gl ca
      = FileResult.copied (pathJoin fl.target cp) orig := by
  have h1 : "/assets".toList <+: cp := List.isPrefixOf_iff_prefix.mp hast
  have htpl : ("/templates".toList).isPrefixOf cp = false := by
    by_contra hc
    have h2 : "/templates".toList <+: cp :=
      List.isPrefixOf_iff_prefix.mp (by simpa using hc)
    rcases List.prefix_or_prefix_of_prefix h1 h2 with h3 | h3
    · exact absurd h3 (by decide)
    · exact absurd h3 (by decide)
  unfold processFile
  repeat' first
    | rfl
    | split
  all_goals simp_all

/-- Witness for amended C7: a concrete ".md" file under assets is copied
byte-for-byte even though its parse result is absent. -/
theorem claim7_assets_copy_witness :
    processFile (encodeMatterLines decimalFmt) (encodeMatterOutLines decimalFmt)
      ⟨"/t".toList, false, true, false, false, false⟩ "/assets/a.md".toList "a.md" false 0
      Option.none "IMG".toList Option.none Option.none false
      = FileResult.copied ("/t/assets/a.md".toList) ("IMG".toList) :=
  claim7_assets_copy_amended (encodeMatterLines decimalFmt) (encodeMatterOutLines decimalFmt)
    ⟨"/t".toList, false, true, false, false, false⟩ "/assets/a.md".toList "a.md" 0
    Option.none "IMG".toList Option.none Option.none false
    rfl (by decide) (by decide)

/-- Claim C8: when the git history query returns empty output, both the
last-modified query and the first-added query yield the zero timestamp and
no error, for any timestamp parser. -/
theorem claim8_empty_history_zero (p : Str → Option Int) :
    getGitLastMod p (some []) = Except.ok 0 ∧ getGitCreated p (some []) = Except.ok 0 :=
  ⟨rfl, rfl⟩

/-- Claim C9: when both the reformat and the quartz flags are set, the
reformat branch is taken and the quartz flag is irrelevant — processing
equals processing with the quartz flag cleared. -/
theorem claim9_reformat_precedence
    (encIn : MatterIn → List Str) (encOut : MatterOut → List Str)
    (fl : Flags) (cp : Str) (name : String) (isDir : Bool) (mt : Int)
    (parsed : Option (MatterIn × Str)) (orig : Str) (gc gl : Option Int) (ca : Bool)
    (hr : fl.reformat = true) :
    processFile encIn encOut fl cp name isDir mt parsed orig gc gl ca
      = processFile encIn encOut { fl with quartz := false } cp name isDir mt parsed orig gc gl ca := by
  obtain ⟨tg, fo, qz, rf, fx, db⟩ := fl
  simp only [Flags.reformat] at hr
  subst hr
  rfl

/-- Witness for C9: with both mode flags set on a concrete published
document, the run equals the quartz-cleared run. -/
theorem claim9_reformat_precedence_witness :
    processFile (encodeMatterLines decimalFmt) (encodeMatterOutLines decimalFmt)
      ⟨"/t".toList, true, true, true, false, false⟩ "/a.md".toList "a.md" false 0
      (some (⟨0, [], [], true⟩, "b".toList)) "X".toList (some 1) (some 2) false
      = processFile (encodeMatterLines decimalFmt) (encodeMatterOutLines decimalFmt)
        { (⟨"/t".toList, true, true, true, false, false⟩ : Flags) with quartz := false }
        "/a.md".toList "a.md" false 0
        (some (⟨0, [], [], true⟩, "b".toList)) "X".toList (some 1) (some 2) false :=
  claim9_reformat_precedence (encodeMatterLines decimalFmt) (encodeMatterOutLines decimalFmt)
    ⟨"/t".toList, true, true, true, false, false⟩ "/a.md".toList "a.md" false 0
    (some (⟨0, [], [], true⟩, "b".toList)) "X".toList (some 1) (some 2) false rfl

/-- Counterexample to C10: with working directory "/v" and target
"/v/out" (different from the working directory), a quartz write lands at
"/v/out/a.md", which lies under the working directory. -/
theorem claim10_write_paths_counterexample :
    ("/v/out".toList ≠ "/v".toList)
    ∧ writeTarget (processFile (encodeMatterLines decimalFmt) (encodeMatterOutLines decimalFmt)
        ⟨"/v/out".toList, true, true, false, false, false⟩ "/a.md".toList "a.md" false 0
        (some (⟨0, [], [], true⟩, "b".toList)) "X".toList (some 1) (some 2) false)
        = some ("/v/out/a.md".toList)
    ∧ underPath "/v".toList "/v/out/a.md".toList :=
  ⟨by decide, by decide, by decide⟩

/-- Amended C10: every write (copy or document write) goes to the join of
the target root with the relative content path; when the target root is
prefix-disjoint from the working directory (neither is a path prefix of the
other — target ≠ wd alone is not enough), no write path lies under the
working directory. -/
theorem claim10_write_paths_amended
    (encIn : MatterIn → List Str) (encOut : MatterOut → List Str)
    (fl : Flags) (cp : Str) (name : String) (isDir : Bool) (mt : Int)
    (parsed : Option (MatterIn × Str)) (orig : Str) (gc gl : Option Int) (ca : Bool)
    (wd pth : Str)
    (hd1 : ¬ fl.target <+: wd ++ ['/']) (hd2 : ¬ wd ++ ['/'] <+: fl.target)
    (hw : writeTarget (processFile encIn encOut fl cp name isDir mt parsed orig gc gl ca) = some pth) :
    pth = pathJoin fl.target cp ∧ ¬ underPath wd pth := by
  have hp : pth = pathJoin fl.target cp := by
    have h := writeTarget_processFile encIn encOut fl cp name isDir mt parsed orig gc gl ca
    rw [hw] at h
    simpa using h
  refine ⟨hp, ?_⟩
  intro hu
  unfold underPath at hu
  rw [hp] at hu
  unfold pathJoin at hu
  rcases List.prefix_or_prefix_of_prefix hu (List.prefix_append fl.target cp) with h3 | h3
  · exact hd2 h3
  · exact hd1 h3

/-- Witness for amended C10: with working directory "/w" and disjoint
target "/t", a concrete quartz write goes to "/t/a.md", outside the
working directory. -/
theorem claim10_write_paths_witness :
    "/t/a.md".toList = pathJoin ("/t".toList) ("/a.md".toList)
    ∧ ¬ underPath ("/w".toList) ("/t/a.md".toList) :=
  claim10_write_paths_amended (encodeMatterLines decimalFmt) (encodeMatterOutLines decimalFmt)
    ⟨"/t".toList, true, true, false, false, false⟩ "/a.md".toList "a.md" false 0
    (some (⟨0, [], [], true⟩, "b".toList)) "X".toList (some 1) (some 2) false
    "/w".toList "/t/a.md".toList
    (by decide) (by decide) (by decide)
